import Mathlib

/-!
Shallow embedding of the `curriculum` crate (src/lib.rs): a CV data model
(`CVEntry` trees with optional year-month dates and categorized skill lists),
duration arithmetic (`CVDuration`), skill extraction/aggregation, and LaTeX
rendering. Rust `HashMap`s are embedded as association lists together with a
lookup (`alFind`) denotation; `chrono::Duration` values are embedded as whole
seconds (`Int`); `DateTime<Utc>` values produced by the crate's `cv_date`
deserializer (year-month, day 1, midnight) are embedded as `CVDate`;
`Utc::now()` is passed explicitly as a `now : Int` timestamp parameter.
-/

/-- Year-month timestamp, as produced by the crate's `cv_date` deserializer:
`Utc.with_ymd_and_hms(year, month, 1, 0, 0, 0)`. -/
structure CVDate where
  year : Nat
  month : Nat
deriving Repr, DecidableEq

/-- Julian day number of a (proleptic Gregorian) calendar date; standard
formula, used to give day-count semantics to date subtraction. -/
def jdn (y m d : Nat) : Nat :=
  let a := (14 - m) / 12
  let y2 := y + 4800 - a
  let m2 := m + 12 * a - 3
  d + (153 * m2 + 2) / 5 + 365 * y2 + y2 / 4 - y2 / 100 + y2 / 400 - 32045

/-- Timestamp (seconds) of a `CVDate`: midnight on day 1 of its month. -/
def CVDate.ts (dt : CVDate) : Int :=
  86400 * (jdn dt.year dt.month 1 : Int)

/-- Source: `SKILL_CATEGORIES` (lib.rs lines 10-17), including the
`"prorgamming languages"` spelling exactly as in the source. -/
def SKILL_CATEGORIES : List String :=
  ["prorgamming languages", "version control", "database", "cloud computing",
   "CI/CD", "other"]

/-- Source: struct `EntryDescription` (lib.rs lines 173-193). -/
structure EntryDescription where
  context : String := ""
  programming : List String := []
  version : List String := []
  database : List String := []
  cloud : List String := []
  ci : List String := []
  other : List String := []
deriving Repr, DecidableEq

/-- Source: struct `CVEntry` (lib.rs lines 28-50); the Rust field `end` is a
Lean keyword and is embedded as `ending`. -/
structure CVEntry where
  beginning : Option CVDate := none
  ending : Option CVDate := none
  degree : String := ""
  institution : String := ""
  city : Option String := none
  grade : Option String := none
  description : Option EntryDescription := none
  subentries : List CVEntry

/-- Source: struct `CVDuration` (lib.rs lines 424-428). -/
structure CVDuration where
  year : Nat := 0
  month : Nat := 0
deriving Repr, DecidableEq

/-- Source: `impl Add for CVDuration` (lib.rs lines 483-494). -/
def CVDuration.add (a b : CVDuration) : CVDuration :=
  let m := a.month + b.month
  let y := a.year + b.year
  if m < 12 then ⟨y, m⟩ else ⟨y + m / 12, m % 12⟩

/-- Source: `CVDuration::round` (lib.rs lines 456-465). -/
def CVDuration.round (d : CVDuration) : CVDuration :=
  if d.year = 0 ∧ d.month ≤ 10 then d
  else ⟨(d.year * 12 + d.month + 6) / 12, 0⟩

/-- Source: `CVEntry::duration` (lib.rs lines 129-139), returning the
`chrono::Duration` (embedded as seconds) `end - beginning`, or `now -
beginning` when `end` is absent, or `None` when `beginning` is absent. -/
def CVEntry.duration (now : Int) (e : CVEntry) : Option Int :=
  match e.beginning with
  | some b =>
    match e.ending with
    | some en => some (en.ts - b.ts)
    | none => some (now - b.ts)
  | none => none

/-- Rust `Duration::num_days()` on an embedded seconds value: `i64` division
truncating toward zero. -/
def numDays (secs : Int) : Int := Int.tdiv secs 86400

/-- Source: `CVEntry::cv_duration` (lib.rs lines 141-151). The Rust cast
`num_days() as u32` keeps the low 32 bits, embedded as `emod 2^32`. -/
def CVEntry.cv_duration (now : Int) (e : CVEntry) : Option CVDuration :=
  match e.duration now with
  | some dur =>
    let d : Nat := (Int.emod (numDays dur) 4294967296).toNat
    some ⟨d / 365, (d % 365 + 15) / 30⟩
  | none => none

/-- Source: `EntryDescription::extract_skills` (lib.rs lines 196-206): the six
fixed insertions followed by `retain` of the non-empty lists. The Rust
`HashMap<&str, Vec<String>>` is embedded as an association list in insertion
order; all lookups go through `alFind`. -/
def EntryDescription.extract_skills (d : EntryDescription) :
    List (String × List String) :=
  [("programming languages", d.programming), ("version control", d.version),
   ("database", d.database), ("cloud computing", d.cloud),
   ("CI/CD", d.ci), ("other", d.other)].filter (fun cs => !cs.2.isEmpty)

/-- Association-list lookup: the denotation of an embedded `HashMap`. -/
def alFind {V : Type} : List (String × V) → String → Option V
  | [], _ => none
  | (k, v) :: t, s => if k = s then some v else alFind t s

/-- Source: `CVEntry::extract_skills` (lib.rs lines 91-97). -/
def CVEntry.extract_skills (e : CVEntry) : List (String × List String) :=
  match e.description with
  | some desc => desc.extract_skills
  | none => []

/-- Rust `HashMap` insertion (replace the value if the key is present,
otherwise append the pair), used to embed `collect::<HashMap<_, _>>()`. -/
def alInsert {V : Type} (k : String) (v : V) :
    List (String × V) → List (String × V)
  | [] => [(k, v)]
  | (k2, v2) :: t => if k2 = k then (k2, v) :: t else (k2, v2) :: alInsert k v t

/-- Source: `CVEntry::extract_skills_duration` (lib.rs lines 101-116): every
skill of the entry's own description is paired with the entry's single
`duration().unwrap_or(zero)`; the inner `collect::<HashMap<_, _>>()` is
embedded as repeated `alInsert`. -/
def CVEntry.extract_skills_duration (now : Int) (e : CVEntry) :
    List (String × List (String × Int)) :=
  match e.description with
  | some desc =>
    (desc.extract_skills).map (fun cs =>
      (cs.1, cs.2.foldl (fun acc s =>
        alInsert s ((e.duration now).getD 0) acc) []))
  | none => []

/-- One step of the inner loop of `add_skillsets` (lib.rs lines 163-169):
`acc.entry(category).or_default()`, then on the inner map
`.entry(skill).and_modify(|d| *d = *d + duration).or_insert(duration)`. -/
def updVal (sk : String) (d : Int) : List (String × Int) → List (String × Int)
  | [] => [(sk, d)]
  | (k, v) :: t => if k = sk then (k, v + d) :: t else (k, v) :: updVal sk d t

/-- Update of the outer category map for one `(category, skill, duration)`
triple of `add_skillsets`. -/
def updCat (cat sk : String) (d : Int) :
    List (String × List (String × Int)) → List (String × List (String × Int))
  | [] => [(cat, updVal sk d [])]
  | (k, v) :: t =>
    if k = cat then (k, updVal sk d v) :: t else (k, v) :: updCat cat sk d t

/-- Source: `add_skillsets` (lib.rs lines 155-171): merge `other` into `acc`,
summing durations of equal (category, skill) pairs. -/
def add_skillsets (acc other : List (String × List (String × Int))) :
    List (String × List (String × Int)) :=
  other.foldl (fun a cs => cs.2.foldl (fun a2 sd => updCat cs.1 sd.1 sd.2 a2) a)
    acc

mutual

/-- Source: `CVEntry::extract_subentries_skills` (lib.rs lines 120-126): the
entry's own skills-with-duration, folded with `add_skillsets` over the
recursively aggregated skills of every subentry, in order. -/
def CVEntry.extract_subentries_skills (now : Int) :
    CVEntry → List (String × List (String × Int))
  | e@⟨_, _, _, _, _, _, _, subs⟩ =>
    aggChildren now subs (e.extract_skills_duration now)
termination_by structural e => e

/-- The `fold` of `extract_subentries_skills`, written as explicit recursion
over the subentry list. -/
def aggChildren (now : Int) :
    List CVEntry → List (String × List (String × Int)) →
      List (String × List (String × Int))
  | [], acc => acc
  | ch :: t, acc =>
    aggChildren now t (add_skillsets acc (ch.extract_subentries_skills now))
termination_by structural l => l

end

/-- Two-level lookup into an embedded skill set: the category-to-skill-to-
duration mapping it denotes. -/
def skFind {V : Type} (m : List (String × List (String × V))) (c s : String) :
    Option V :=
  (alFind m c).bind (fun inner => alFind inner s)

/-- Source: struct `CVLanguage` (lib.rs lines 394-401). -/
structure CVLanguage where
  language : String := ""
  level : String := ""
  comment : String := ""

/-- Source: struct `CVEmail` (lib.rs lines 317-322). -/
structure CVEmail where
  name : Option String := none
  mail : String := ""

/-- Source: struct `PersonalData` (lib.rs lines 335-351). -/
structure PersonalData where
  name : String := ""
  title : Option String := none
  mobile : List String := []
  email : List CVEmail := []
  github : Option String := none
  gitlab : Option String := none
  twitter : Option String := none
  linkedin : Option String := none
  webpage : List (String × String) := []

/-- Source: struct `Curriculum` (lib.rs lines 226-234). -/
structure Curriculum where
  personal_data : PersonalData := {}
  education : List CVEntry := []
  experiences : List CVEntry := []
  languages : List CVLanguage := []

/-- Inner-map step of `Curriculum::get_skills` (lib.rs lines 308-309):
`ret_categ.entry(skill).or_default()` (insert `CVDuration::default` when
absent) then `*s = s.clone() + duration.clone()`. -/
def updValCV (sk : String) (d : CVDuration) :
    List (String × CVDuration) → List (String × CVDuration)
  | [] => [(sk, CVDuration.add {} d)]
  | (k, v) :: t =>
    if k = sk then (k, CVDuration.add v d) :: t else (k, v) :: updValCV sk d t

/-- Outer-map step of `Curriculum::get_skills` (lib.rs line 306):
`ret_skills.entry(categ).or_default()`, then `updValCV` in the inner map. -/
def updCatCV (cat sk : String) (d : CVDuration) :
    List (String × List (String × CVDuration)) →
      List (String × List (String × CVDuration))
  | [] => [(cat, updValCV sk d [])]
  | (k, v) :: t =>
    if k = cat then (k, updValCV sk d v) :: t else (k, v) :: updCatCV cat sk d t

/-- Source: `Curriculum::get_skills` (lib.rs lines 300-314): a double loop over
the top-level `experiences` and each experience's own `extract_skills`, adding
the experience's `cv_duration().unwrap_or_default()` per skill occurrence. It
does not visit `subentries`. -/
def Curriculum.get_skills (now : Int) (c : Curriculum) :
    List (String × List (String × CVDuration)) :=
  c.experiences.foldl (fun ret xp =>
    let dur := (xp.cv_duration now).getD {}
    (xp.extract_skills).foldl (fun ret2 cs =>
      cs.2.foldl (fun ret3 s => updCatCV cs.1 s dur ret3) ret2) ret) []

/-- Rust `Vec::join(sep)` on strings. -/
def joinSep (sep : String) : List String → String
  | [] => ""
  | [s] => s
  | s :: t => s ++ sep ++ joinSep sep t

/-- Decimal digit character `d % 10`. -/
def digitCh (d : Nat) : Char := "0123456789".data.getD (d % 10) (Char.ofNat 48)

/-- Digit list of `n`, with enough fuel to consume every digit. -/
def natReprAux : Nat → Nat → List Char
  | 0, _ => []
  | fuel + 1, n =>
    if n < 10 then [digitCh n]
    else natReprAux fuel (n / 10) ++ [digitCh (n % 10)]

/-- Decimal rendering of an unsigned integer (Rust `Display`). -/
def natRepr (n : Nat) : String := String.mk (natReprAux (n + 1) n)

/-- Chrono `%Y` year formatting: zero-padded to 4 digits; chrono prints an
explicit sign for years outside `0..=9999`. -/
def formatYear (y : Nat) : String :=
  let s := natRepr y
  if y ≤ 9999 then
    (if s.length < 4 then String.mk (List.replicate (4 - s.length) (digitCh 0)) ++ s
     else s)
  else "+" ++ s

/-- Source: `CVEntry::get_dates` (lib.rs lines 78-87): format the years of the
present dates and join with `"--"`. -/
def CVEntry.get_dates (e : CVEntry) : String :=
  let dates : List String :=
    (match e.beginning with | some b => [formatYear b.year] | none => []) ++
    (match e.ending with | some en => [formatYear en.year] | none => [])
  joinSep "--" dates

/-- Display of the Rust `f32` value `21.5 - margin` (lib.rs line 63); for the
half-integer values arising here, Rust prints `d.5` or `-d.5`. -/
def hspaceNum (margin : Nat) : String :=
  if margin ≤ 21 then natRepr (21 - margin) ++ ".5"
  else "-" ++ natRepr (margin - 22) ++ ".5"

/-- Rust `str::trim`: drop whitespace from both ends. -/
def rustTrim (s : String) : String :=
  String.mk
    (((s.data.dropWhile Char.isWhitespace).reverse.dropWhile
        Char.isWhitespace).reverse)

/-- Source: `EntryDescription::to_latex` (lib.rs lines 208-223): a `%` line,
the context, and, when any skill category is non-empty, a `description`
environment with one `\item` per non-empty category in `SKILL_CATEGORIES`
order (looked up by the names as spelled in `SKILL_CATEGORIES`). -/
def EntryDescription.to_latex (d : EntryDescription) : String :=
  let lines := ["%", d.context]
  let skills := d.extract_skills
  let lines := if skills.isEmpty then lines else
    lines ++ ["\\begin\x7bdescription\x7d"] ++
      SKILL_CATEGORIES.foldl (fun acc name =>
        match alFind skills name with
        | some list => acc ++ ["\\item [" ++ name ++ "] " ++ joinSep ", " list]
        | none => acc) [] ++
      ["\\end\x7bdescription\x7d\n"]
  joinSep "\n" lines

mutual

/-- Source: `CVEntry::to_latex` (lib.rs lines 54-76): the description block,
then each subentry prefixed by a newline and (when subentries exist) the
`\hspace*` margin directive computed from the maximum sibling date-label
length, all wrapped in a `\cventry` record. -/
def CVEntry.to_latex : CVEntry → String
  | e@⟨_, _, _, _, _, _, _, subs⟩ =>
    let descr0 : String := match e.description with
      | some d => d.to_latex
      | none => ""
    let maxLen := (subs.map (fun s => s.get_dates.length)).max?
    let descr := renderSubs maxLen subs descr0
    "\\cventry\x7b" ++ e.get_dates ++ "\x7d\x7b" ++ e.degree ++ "\x7d\x7b" ++
      e.institution ++ "\x7d\x7b" ++ e.city.getD "" ++ "\x7d\x7b" ++
      e.grade.getD "" ++ "\x7d\x7b%\n" ++ rustTrim descr ++ "%\n\x7d"
termination_by structural e => e

/-- The subentry loop of `CVEntry::to_latex` (lib.rs lines 60-66). -/
def renderSubs (maxLen : Option Nat) :
    List CVEntry → String → String
  | [], descr => descr
  | sub :: t, descr =>
    let d1 := descr ++ "\n"
    let d2 := match maxLen with
      | some m => d1 ++ "\\hspace*\x7b-" ++ hspaceNum m ++ "ex\x7d"
      | none => d1
    renderSubs maxLen t (d2 ++ sub.to_latex)
termination_by structural l => l

end

/-- Source: `PersonalData::to_latex` (lib.rs lines 354-391). -/
def PersonalData.to_latex (p : PersonalData) : String :=
  let names := p.name.splitOn " "
  let first_name := match names with
    | [] => ""
    | n :: _ => n
  let lines := ["% personal data",
    "\\firstname\x7b\\LARGE " ++ first_name ++ "\x7d"]
  let lines := lines ++ (match names.get? 1 with
    | some last_name => ["\\familyname\x7b\\LARGE " ++ last_name ++ "\x7d"]
    | none => ["\\familyname\x7b\x7b\x7d\x7d"])
  let lines := lines ++ (match p.title with
    | some title => ["\\title\x7b" ++ title ++ "\x7d"]
    | none => [])
  let lines := lines ++ p.mobile.map (fun t => "\\mobile\x7b" ++ t ++ "\x7d")
  let lines := lines ++ p.email.map (fun e => "\\email\x7b" ++ e.mail ++ "\x7d")
  let lines := lines ++ (match p.github with
    | some e => ["\\social[github]\x7b" ++ e ++ "\x7d"]
    | none => [])
  let lines := lines ++ (match p.gitlab with
    | some e => ["\\social[gitlab]\x7b" ++ e ++ "\x7d"]
    | none => [])
  let lines := lines ++ (match p.linkedin with
    | some e => ["\\social[linkedin]\x7b" ++ e ++ "\x7d"]
    | none => [])
  let lines := lines ++ (match p.twitter with
    | some e => ["\\social[twitter]\x7b" ++ e ++ "\x7d"]
    | none => [])
  let lines := lines ++ p.webpage.map (fun nu =>
    "\\extrainfo\x7b\\homepagesymbol " ++ nu.1 ++ " \\url\x7b" ++ nu.2 ++
      "\x7d\x7d")
  joinSep "\n" lines

/-- Source: `CVLanguage::to_latex` (lib.rs lines 404-409). -/
def CVLanguage.to_latex (l : CVLanguage) : String :=
  "\\cvlanguage\x7b" ++ l.language ++ "\x7d\x7b" ++ l.level ++ "\x7d\x7b" ++
    l.comment ++ "\x7d"

/-- UTF-8 encoding of one Unicode scalar value, by codepoint range. -/
def utf8EncodeChar (c : Char) : List Nat :=
  let n := c.toNat
  if n < 0x80 then [n]
  else if n < 0x800 then [0xC0 + n / 0x40, 0x80 + n % 0x40]
  else if n < 0x10000 then
    [0xE0 + n / 0x1000, 0x80 + (n / 0x40) % 0x40, 0x80 + n % 0x40]
  else
    [0xF0 + n / 0x40000, 0x80 + (n / 0x1000) % 0x40, 0x80 + (n / 0x40) % 0x40,
     0x80 + n % 0x40]

/-- The byte sequence of a Rust `str` / `String::into_bytes`. -/
def strBytes (s : String) : List Nat :=
  s.data.foldr (fun c acc => utf8EncodeChar c ++ acc) []

mutual

/-- The UTF-8 validation run by Rust `String::from_utf8` (`core`'s
`run_utf8_validation`), written as a byte-at-a-time automaton: the standard
leading-byte ranges dispatch into `validRun`, which checks the constrained
first continuation byte and the remaining generic continuation bytes. The
ranges exclude overlong forms, surrogates, and codepoints above `0x10FFFF`. -/
def validUtf8 : List Nat → Bool
  | [] => true
  | b :: rest =>
    if b < 0x80 then validUtf8 rest
    else if 0xC2 ≤ b ∧ b ≤ 0xDF then validRun 0 0x80 0xBF rest
    else if b = 0xE0 then validRun 1 0xA0 0xBF rest
    else if (0xE1 ≤ b ∧ b ≤ 0xEC) ∨ b = 0xEE ∨ b = 0xEF then
      validRun 1 0x80 0xBF rest
    else if b = 0xED then validRun 1 0x80 0x9F rest
    else if b = 0xF0 then validRun 2 0x90 0xBF rest
    else if 0xF1 ≤ b ∧ b ≤ 0xF3 then validRun 2 0x80 0xBF rest
    else if b = 0xF4 then validRun 2 0x80 0x8F rest
    else false
termination_by structural l => l

/-- Consume one continuation byte constrained to `[lo, hi]` followed by `k`
generic continuation bytes, then resume `validUtf8`. -/
def validRun : Nat → Nat → Nat → List Nat → Bool
  | _, _, _, [] => false
  | k, lo, hi, b :: rest =>
    if lo ≤ b ∧ b ≤ hi then
      if k = 0 then validUtf8 rest else validRun (k - 1) 0x80 0xBF rest
    else false
termination_by structural k lo hi l => l

end

/-- Rust `String::from_utf8(s.into_bytes())` as used on the preamble constant
(lib.rs line 241): validate the UTF-8 byte encoding; on success the decoded
text is the original string, otherwise a `FromUtf8Error` is returned. -/
def string_from_utf8 (s : String) : Except String String :=
  if validUtf8 (strBytes s) then Except.ok s else Except.error "FromUtf8Error"

/-- Source: `Curriculum::to_latex` (lib.rs lines 238-270), with the
compile-time `PREAMBULE` constant passed as the `preambule` argument; `?` on
the `String::from_utf8` result is the only fallible step. -/
def Curriculum.to_latex (preambule : String) (c : Curriculum) :
    Except String String :=
  match string_from_utf8 preambule with
  | Except.error e => Except.error e
  | Except.ok pre =>
    let output := [pre, c.personal_data.to_latex,
      "\n\\begin\x7bdocument\x7d\n", "\\maketitle", "\\section\x7bEducation\x7d"]
    let output := output ++
      c.education.foldl (fun acc edu => acc ++ [edu.to_latex, "\n"]) []
    let output := output ++ ["\\section\x7bProffesional experience\x7d"]
    let output := output ++
      c.experiences.foldl (fun acc xp => acc ++ [xp.to_latex, "\n"]) []
    let output := output ++ ["\\section\x7bLanguages\x7d"]
    let output := output ++
      c.languages.foldl (fun acc lg => acc ++ [lg.to_latex, "\n"]) []
    let output := output ++ ["\\end\x7bdocument\x7d"]
    Except.ok (joinSep "\n" output)

/-- The opening group delimiter of the produced markup. -/
def lb : Char := Char.ofNat 123

/-- The closing group delimiter of the produced markup. -/
def rb : Char := Char.ofNat 125

/-- Number of opening minus number of closing group delimiters. -/
def dCount (s : String) : Int := (s.data.count lb : Int) - (s.data.count rb : Int)

/-- A string containing equally many opening and closing group delimiters. -/
def braceBalanced (s : String) : Bool := s.data.count lb == s.data.count rb

/-- Every free-text field of a description is brace-balanced. -/
def EntryDescription.textBalanced (d : EntryDescription) : Bool :=
  braceBalanced d.context &&
    (d.programming ++ d.version ++ d.database ++ d.cloud ++ d.ci ++
      d.other).all braceBalanced

mutual

/-- Every free-text field in an entry tree is brace-balanced. -/
def CVEntry.textBalanced : CVEntry → Bool
  | e@⟨_, _, _, _, _, _, _, subs⟩ =>
    braceBalanced e.degree && braceBalanced e.institution &&
    braceBalanced (e.city.getD "") && braceBalanced (e.grade.getD "") &&
    (match e.description with
     | some d => d.textBalanced
     | none => true) &&
    listTextBalanced subs
termination_by structural e => e

/-- `textBalanced` over a list of entries. -/
def listTextBalanced : List CVEntry → Bool
  | [] => true
  | x :: t => x.textBalanced && listTextBalanced t
termination_by structural l => l

end

/-- Additive combination of optional durations: `none` is absence. -/
def optAdd : Option Int → Option Int → Option Int
  | none, b => b
  | some a, none => some a
  | some a, some b => some (a + b)

/-- Total duration attributed to skill `s` by the bindings of one inner
skill list, duplicate keys summed. -/
def contribSk (s : String) : List (String × Int) → Option Int
  | [] => none
  | sd :: t =>
    if sd.1 = s then optAdd (some sd.2) (contribSk s t) else contribSk s t

/-- Total duration attributed to `(c, s)` by all bindings of a skill set,
duplicate keys summed. -/
def contrib (c s : String) : List (String × List (String × Int)) → Option Int
  | [] => none
  | cs :: t =>
    if cs.1 = c then optAdd (contribSk s cs.2) (contrib c s t) else contrib c s t

/-- The curriculum with every top-level experience stripped of its
subentries. -/
def Curriculum.dropSubentries (c : Curriculum) : Curriculum :=
  { c with experiences := c.experiences.map (fun xp => { xp with subentries := [] }) }

/-- A description whose only skill tag list is `programming`. -/
def descProgramming : EntryDescription :=
  { context := "ctx", programming := ["rust"] }

/-- An entry whose `end` precedes its `beginning` by 61 days. -/
def entryNegSpan : CVEntry :=
  { beginning := some ⟨2023, 12⟩
    ending := some ⟨2023, 10⟩
    subentries := [] }

/-- A subentry carrying the `ci` skill `"git"` over 2022-10 to 2023-11. -/
def subWithSkill : CVEntry :=
  { beginning := some ⟨2022, 10⟩
    ending := some ⟨2023, 11⟩
    description := some { ci := ["git"] }
    subentries := [] }

/-- A top-level experience without its own description whose only skills live
in a subentry. -/
def xpNested : CVEntry :=
  { beginning := some ⟨2022, 1⟩
    ending := some ⟨2023, 1⟩
    subentries := [subWithSkill] }

/-- A curriculum whose single experience carries skills only in a subentry. -/
def cvNested : Curriculum :=
  { personal_data := {}
    education := []
    experiences := [xpNested]
    languages := [] }

/-- An entry with an `end` but no `beginning`, carrying one `ci` skill. -/
def entryNoBeginning : CVEntry :=
  { ending := some ⟨2024, 1⟩
    description := some { ci := ["git"] }
    subentries := [] }

/-- An entry whose `degree` free text is a lone opening brace. -/
def entryUnbalanced : CVEntry :=
  { degree := "\x7b"
    subentries := [] }

/-- A balanced tree of depth three for the brace-balance theorem. -/
def entryDeep : CVEntry :=
  { degree := "root"
    beginning := some ⟨1977, 7⟩
    ending := some ⟨2000, 11⟩
    subentries :=
      [{ degree := "mid"
         subentries :=
           [{ description := some { context := "leaf ctx", ci := ["git"] }
              subentries := [] }] }] }

/-- Normalized form of `CVDuration.add`: months summed and folded into years. -/
theorem CVDuration.add_norm (a b : CVDuration) :
    CVDuration.add a b =
      ⟨a.year + b.year + (a.month + b.month) / 12, (a.month + b.month) % 12⟩ := by
  obtain ⟨ay, am⟩ := a
  obtain ⟨byr, bm⟩ := b
  unfold CVDuration.add
  dsimp only
  split <;> simp only [CVDuration.mk.injEq] <;> omega

/-- Claim C7: `CVDuration` addition is commutative and associative; it sums
the month components and carries whole dozens of months into the years. -/
theorem CVDuration.add_comm_assoc (a b c : CVDuration) :
    CVDuration.add a b = CVDuration.add b a ∧
      CVDuration.add (CVDuration.add a b) c =
        CVDuration.add a (CVDuration.add b c) := by
  simp only [CVDuration.add_norm, CVDuration.mk.injEq]
  omega

/-- Claim C5: `CVDuration.round` keeps a value with zero years and at most ten
months unchanged and otherwise collapses to
`⟨(years * 12 + months + 6) / 12, 0⟩`, with the seven specified examples. -/
theorem CVDuration.round_spec :
    (∀ d : CVDuration, d.round =
        if d.year = 0 ∧ d.month ≤ 10 then d
        else ⟨(d.year * 12 + d.month + 6) / 12, 0⟩) ∧
      CVDuration.round ⟨3, 3⟩ = ⟨3, 0⟩ ∧ CVDuration.round ⟨3, 5⟩ = ⟨3, 0⟩ ∧
      CVDuration.round ⟨3, 6⟩ = ⟨4, 0⟩ ∧ CVDuration.round ⟨3, 7⟩ = ⟨4, 0⟩ ∧
      CVDuration.round ⟨3, 9⟩ = ⟨4, 0⟩ ∧
      CVDuration.round ⟨0, 10⟩ = ⟨0, 10⟩ ∧
      CVDuration.round ⟨0, 11⟩ = ⟨1, 0⟩ := by
  refine ⟨fun d => rfl, ?_, ?_, ?_, ?_, ?_, ?_, ?_⟩ <;> decide

/-- Claim C2, failing input: a description with a non-empty
programming-languages list is extracted under the key
`"programming languages"`, but the rendered block contains no `\item` at all,
because the renderer looks the category up under the `SKILL_CATEGORIES`
spelling `"prorgamming languages"`. -/
theorem to_latex_drops_programming_item :
    descProgramming.extract_skills = [("programming languages", ["rust"])] ∧
      alFind descProgramming.extract_skills "programming languages" =
        some ["rust"] ∧
      alFind descProgramming.extract_skills "prorgamming languages" = none ∧
      descProgramming.to_latex =
        "%\nctx\n\\begin\x7bdescription\x7d\n\\end\x7bdescription\x7d\n" :=
  ⟨rfl, rfl, rfl, rfl⟩

/-- Claim C3, failing input: on `end < beginning` the day-level span is the
negative `chrono` duration `-61` days (here in seconds), but `cv_duration`
casts the day count through `u32`, wrapping it to `2^32 - 61` days and hence
to a huge positive `CVDuration` instead of a negative or zero-clamped one. -/
theorem cv_duration_wraps_negative_span :
    entryNegSpan.duration 0 = some (-5270400) ∧
      numDays (-5270400) = -61 ∧
      entryNegSpan.cv_duration 0 = some ⟨11767033, 6⟩ := by
  refine ⟨by decide, by decide, by decide⟩

/-- Day count of a date difference: the Julian-day-number difference. -/
theorem numDays_ts_sub (d1 d2 : CVDate) :
    numDays (d1.ts - d2.ts) =
      (jdn d1.year d1.month 1 : Int) - jdn d2.year d2.month 1 := by
  unfold numDays CVDate.ts
  rw [← Int.mul_sub]
  exact Int.mul_tdiv_cancel_left _ (by norm_num)

/-- Claim C6: for an entry with both dates present (and a non-negative span
below `2^32` days), `cv_duration` converts the day count `d` of the span into
`⟨d / 365, (d % 365 + 15) / 30⟩`; with the three specified examples. -/
theorem cv_duration_day_formula :
    (∀ (e : CVEntry) (b en : CVDate) (now : Int),
        e.beginning = some b → e.ending = some en →
        jdn b.year b.month 1 ≤ jdn en.year en.month 1 →
        jdn en.year en.month 1 - jdn b.year b.month 1 < 4294967296 →
        e.cv_duration now =
          some ⟨(jdn en.year en.month 1 - jdn b.year b.month 1) / 365,
            ((jdn en.year en.month 1 - jdn b.year b.month 1) % 365 + 15) / 30⟩) ∧
      CVEntry.cv_duration 0
          ⟨some ⟨2023, 10⟩, some ⟨2023, 12⟩, "", "", none, none, none, []⟩ =
        some ⟨0, 2⟩ ∧
      CVEntry.cv_duration 0
          ⟨some ⟨2013, 10⟩, some ⟨2023, 12⟩, "", "", none, none, none, []⟩ =
        some ⟨10, 2⟩ ∧
      CVEntry.cv_duration 0
          ⟨some ⟨2023, 10⟩, some ⟨2023, 10⟩, "", "", none, none, none, []⟩ =
        some ⟨0, 0⟩ := by
  refine ⟨?_, by decide, by decide, by decide⟩
  intro e b en now hb hen hle hlt
  have hdur : e.duration now = some (en.ts - b.ts) := by
    unfold CVEntry.duration
    rw [hb, hen]
  simp only [CVEntry.cv_duration, hdur, numDays_ts_sub, Option.some.injEq,
    CVDuration.mk.injEq]
  have hcast : (jdn en.year en.month 1 : Int) - jdn b.year b.month 1 =
      ((jdn en.year en.month 1 - jdn b.year b.month 1 : Nat) : Int) := by
    omega
  rw [hcast]
  have hemod :
      ((jdn en.year en.month 1 - jdn b.year b.month 1 : Nat) : Int).emod
          4294967296 =
        ((jdn en.year en.month 1 - jdn b.year b.month 1 : Nat) : Int) :=
    Int.emod_eq_of_lt (by omega) (by omega)
  rw [hemod]
  omega

/-- Witness for `cv_duration_day_formula`: the general day-count formula
applied to the October-to-December 2023 entry. -/
theorem cv_duration_day_formula_witness :
    CVEntry.cv_duration 5
        ⟨some ⟨2023, 10⟩, some ⟨2023, 12⟩, "", "", none, none, none, []⟩ =
      some ⟨0, 2⟩ := by
  have h := cv_duration_day_formula.1
    ⟨some ⟨2023, 10⟩, some ⟨2023, 12⟩, "", "", none, none, none, []⟩
    ⟨2023, 10⟩ ⟨2023, 12⟩ 5 rfl rfl (by decide) (by decide)
  rw [h]
  decide

/-- Claim C1, counterexample: in `cvNested` the subentry carries the skill
`git`, and the recursive subtree aggregation (`extract_subentries_skills`
merged over all experiences) maps `(CI/CD, git)` to its 396-day duration in
seconds; yet `get_skills` returns a mapping with no binding for it at all,
so `get_skills` does not equal the merged recursive aggregation. -/
theorem get_skills_misses_subentry_skill :
    skFind (cvNested.get_skills 0) "CI/CD" "git" = none ∧
      cvNested.get_skills 0 = [] ∧
      skFind (cvNested.experiences.foldl
          (fun a xp => add_skillsets a (xp.extract_subentries_skills 0)) [])
        "CI/CD" "git" = some 34214400 :=
  ⟨rfl, rfl, rfl⟩

/-- Claim C1, amended: `get_skills` aggregates only each top-level
experience's own description skills with that experience's `cv_duration`; it
never recurses into subentries, so stripping every subentry from every
experience leaves its result unchanged. -/
theorem get_skills_ignores_subentries (now : Int) (c : Curriculum) :
    (c.dropSubentries).get_skills now = c.get_skills now := by
  unfold Curriculum.get_skills Curriculum.dropSubentries
  simp only [List.foldl_map]
  congr 1


/-- Lookup after a `HashMap` insertion. -/
theorem alFind_alInsert {V : Type} (k : String) (v : V) (m : List (String × V))
    (s : String) :
    alFind (alInsert k v m) s = if k = s then some v else alFind m s := by
  induction m with
  | nil => simp [alInsert, alFind]
  | cons hd t ih =>
    obtain ⟨k2, v2⟩ := hd
    by_cases h1 : k2 = k
    · subst h1
      simp only [alInsert, if_pos rfl, alFind]
      by_cases h2 : k2 = s <;> simp [h2]
    · simp only [alInsert, if_neg h1, alFind, ih]
      by_cases h2 : k2 = s
      · subst h2
        simp [show k ≠ k2 from fun hh => h1 hh.symm]
      · simp [h2]

/-- Lookup in an inner map collected from a skill list: every listed skill is
bound to the single duration `v`. -/
theorem alFind_collect (v : Int) (l : List String) (acc : List (String × Int))
    (s : String) :
    alFind (l.foldl (fun a sk => alInsert sk v a) acc) s =
      if s ∈ l then some v else alFind acc s := by
  induction l generalizing acc with
  | nil => simp
  | cons x t ih =>
    simp only [List.foldl_cons, ih, alFind_alInsert, List.mem_cons]
    split_ifs <;> simp_all

/-- Lookup through the per-category `map` of `extract_skills_duration`. -/
theorem alFind_map_collect (v : Int) (L : List (String × List String))
    (c : String) :
    alFind (L.map (fun cs =>
        (cs.1, cs.2.foldl (fun acc s => alInsert s v acc) []))) c =
      (alFind L c).map
        (fun l2 => l2.foldl (fun acc s => alInsert s v acc) []) := by
  induction L with
  | nil => rfl
  | cons hd t ih =>
    obtain ⟨k, l⟩ := hd
    by_cases h : k = c <;> simp [alFind, h, ih]

/-- Characterization of the per-entry skills-with-duration map: each extracted
skill is bound to the entry's single `duration().unwrap_or(zero)`. -/
theorem skFind_esd (now : Int) (e : CVEntry) (c s : String) :
    skFind (e.extract_skills_duration now) c s =
      match alFind e.extract_skills c with
      | some l => if s ∈ l then some ((e.duration now).getD 0) else none
      | none => none := by
  unfold CVEntry.extract_skills_duration CVEntry.extract_skills skFind
  cases hd : e.description with
  | none => simp [alFind]
  | some desc =>
    rw [alFind_map_collect ((e.duration now).getD 0)]
    cases hf : alFind desc.extract_skills c with
    | none => rfl
    | some l => simp [alFind_collect, alFind]

/-- Claim C9: an entry with no `beginning` (even with `end` present) has no
duration; in aggregation it contributes nothing without a description, and
with one it contributes exactly its description's skills, each bound to the
zero duration. -/
theorem no_beginning_contributes_zero (now : Int) (e : CVEntry)
    (h : e.beginning = none) :
    e.duration now = none ∧
      e.cv_duration now = none ∧
      (e.description = none → e.extract_skills_duration now = []) ∧
      (∀ c s v, skFind (e.extract_skills_duration now) c s = some v → v = 0) ∧
      (∀ c l, alFind e.extract_skills c = some l → ∀ s ∈ l,
        skFind (e.extract_skills_duration now) c s = some 0) := by
  have hdur : e.duration now = none := by
    unfold CVEntry.duration
    rw [h]
  refine ⟨hdur, ?_, ?_, ?_, ?_⟩
  · simp [CVEntry.cv_duration, hdur]
  · intro hd
    simp [CVEntry.extract_skills_duration, hd]
  · intro c s v hv
    rw [skFind_esd] at hv
    cases hf : alFind e.extract_skills c with
    | none => rw [hf] at hv; simp at hv
    | some l =>
      rw [hf] at hv
      dsimp only at hv
      by_cases hs : s ∈ l
      · rw [if_pos hs, hdur] at hv
        simpa using hv.symm
      · rw [if_neg hs] at hv
        simp at hv
  · intro c l hl s hs
    rw [skFind_esd, hl]
    dsimp only
    rw [if_pos hs, hdur]
    rfl

/-- Witness for `no_beginning_contributes_zero`: the beginning-less entry has
no duration and contributes `git` with the zero duration. -/
theorem no_beginning_contributes_zero_witness :
    CVEntry.duration 0 entryNoBeginning = none ∧
      skFind (entryNoBeginning.extract_skills_duration 0) "CI/CD" "git" =
        some 0 :=
  ⟨(no_beginning_contributes_zero 0 entryNoBeginning rfl).1,
   (no_beginning_contributes_zero 0 entryNoBeginning rfl).2.2.2.2
     "CI/CD" ["git"] rfl "git" (by decide)⟩

/-- Absence is a right identity for `optAdd`. -/
theorem optAdd_none_right (a : Option Int) : optAdd a none = a := by
  cases a <;> rfl

/-- The additive combination is commutative. -/
theorem optAdd_comm (a b : Option Int) : optAdd a b = optAdd b a := by
  cases a <;> cases b <;> simp [optAdd] <;> omega

/-- The additive combination is associative. -/
theorem optAdd_assoc (a b c : Option Int) :
    optAdd (optAdd a b) c = optAdd a (optAdd b c) := by
  cases a <;> cases b <;> cases c <;> simp [optAdd] <;> omega

/-- Lookup after one `updVal` step: it adds `d` at key `sk`. -/
theorem alFind_updVal (sk : String) (d : Int) (l : List (String × Int))
    (s : String) :
    alFind (updVal sk d l) s =
      if sk = s then optAdd (alFind l s) (some d) else alFind l s := by
  induction l with
  | nil => by_cases h : sk = s <;> simp [updVal, alFind, h, optAdd]
  | cons hd t ih =>
    obtain ⟨k, v⟩ := hd
    by_cases h1 : k = sk
    · subst h1
      simp only [updVal, if_pos rfl, alFind]
      by_cases h2 : k = s <;> simp [h2, optAdd]
    · simp only [updVal, if_neg h1, alFind, ih]
      by_cases h2 : k = s
      · have h3 : sk ≠ s := fun hh => h1 (h2.trans hh.symm)
        simp [h2, h3]
      · simp [h2]

/-- Lookup after one `updCat` step: it adds `d` at `(cat, sk)`. -/
theorem skFind_updCat (cat sk : String) (d : Int)
    (m : List (String × List (String × Int))) (c s : String) :
    skFind (updCat cat sk d m) c s =
      if cat = c ∧ sk = s then optAdd (skFind m c s) (some d)
      else skFind m c s := by
  induction m with
  | nil =>
    simp only [updCat, skFind, alFind]
    by_cases h1 : cat = c
    · simp only [h1, if_pos rfl, Option.bind, alFind_updVal]
      by_cases h2 : sk = s <;> simp [h2, alFind, optAdd]
    · simp [h1, alFind]
  | cons hd t ih =>
    obtain ⟨k, v⟩ := hd
    by_cases h1 : k = cat
    · subst h1
      simp only [updCat, if_pos rfl, skFind, alFind]
      by_cases h2 : k = c
      · simp only [h2, if_pos rfl, Option.some_bind, alFind_updVal]
        by_cases h3 : sk = s <;> simp [h2, h3, skFind, alFind, alFind_updVal]
      · simp only [if_neg h2]
        have : ¬(k = c ∧ sk = s) := fun hh => h2 hh.1
        simp [this, skFind, alFind, h2]
    · simp only [updCat, if_neg h1, skFind, alFind]
      by_cases h2 : k = c
      · have : ¬(cat = c) := fun hh => h1 (hh.symm ▸ h2)
        simp [h2, this]
      · have hout := ih
        simp only [skFind] at hout
        simp [h2, hout]

/-- Lookup after the inner fold of `add_skillsets` over one category's skill
list: it adds that category's total contribution. -/
theorem skFind_inner_fold (cat : String) (sl : List (String × Int))
    (acc : List (String × List (String × Int))) (c s : String) :
    skFind (sl.foldl (fun a2 sd => updCat cat sd.1 sd.2 a2) acc) c s =
      if cat = c then optAdd (skFind acc c s) (contribSk s sl)
      else skFind acc c s := by
  induction sl generalizing acc with
  | nil => by_cases h : cat = c <;> simp [contribSk, h, optAdd_none_right]
  | cons sd t ih =>
    simp only [List.foldl_cons, ih, skFind_updCat, contribSk]
    by_cases h1 : cat = c
    · by_cases h2 : sd.1 = s
      · simp [h1, h2, optAdd_assoc]
      · simp [h1, h2]
    · simp [h1]

/-- Lookup after `add_skillsets`: the merged map binds `(c, s)` to the
combination of what `acc` binds and the total contribution of `other`. -/
theorem skFind_add (acc other : List (String × List (String × Int)))
    (c s : String) :
    skFind (add_skillsets acc other) c s =
      optAdd (skFind acc c s) (contrib c s other) := by
  induction other generalizing acc with
  | nil => simp [add_skillsets, contrib, optAdd_none_right]
  | cons cs t ih =>
    simp only [add_skillsets, List.foldl_cons] at ih ⊢
    rw [ih, skFind_inner_fold]
    simp only [contrib]
    by_cases h1 : cs.1 = c
    · simp [h1, optAdd_assoc]
    · simp [h1]

/-- Lookup after aggregating a list of children: a fold of the children's
total contributions over the accumulator's binding. -/
theorem skFind_aggChildren (now : Int) (l : List CVEntry)
    (acc : List (String × List (String × Int))) (c s : String) :
    skFind (aggChildren now l acc) c s =
      l.foldl
        (fun x ch => optAdd x (contrib c s (ch.extract_subentries_skills now)))
        (skFind acc c s) := by
  induction l generalizing acc with
  | nil => simp [aggChildren]
  | cons ch t ih => simp only [aggChildren, List.foldl_cons, ih, skFind_add]

/-- An `optAdd`-fold is invariant under permutation of the folded list. -/
theorem foldl_optAdd_perm (g : CVEntry → Option Int) :
    ∀ {l1 l2 : List CVEntry}, l1.Perm l2 →
      ∀ x, l1.foldl (fun a ch => optAdd a (g ch)) x =
        l2.foldl (fun a ch => optAdd a (g ch)) x := by
  intro l1 l2 h
  induction h with
  | nil => intro x; rfl
  | cons y _ ih => intro x; simp only [List.foldl_cons, ih]
  | swap y z l =>
    intro x
    simp only [List.foldl_cons]
    congr 1
    rw [optAdd_assoc, optAdd_assoc, optAdd_comm (g _)]
  | trans _ _ ih1 ih2 => intro x; rw [ih1, ih2]

/-- The per-entry skills-with-duration map depends only on the entry's
description and dates. -/
theorem esd_congr (now : Int) (e1 e2 : CVEntry)
    (hb : e1.beginning = e2.beginning) (he : e1.ending = e2.ending)
    (hd : e1.description = e2.description) :
    e1.extract_skills_duration now = e2.extract_skills_duration now := by
  have hdur : e1.duration now = e2.duration now := by
    unfold CVEntry.duration
    rw [hb, he]
  unfold CVEntry.extract_skills_duration
  rw [hd, hdur]

/-- Claim C8: the subtree aggregation is invariant under reordering of a
node's children: two entries with the same dates and description whose
subentry sequences are permutations of each other aggregate to the same
category-to-skill-to-duration mapping. -/
theorem extract_subentries_skills_perm_invariant (now : Int) (e1 e2 : CVEntry)
    (hb : e1.beginning = e2.beginning) (he : e1.ending = e2.ending)
    (hd : e1.description = e2.description)
    (hp : e1.subentries.Perm e2.subentries) (c s : String) :
    skFind (e1.extract_subentries_skills now) c s =
      skFind (e2.extract_subentries_skills now) c s := by
  obtain ⟨b1, en1, dg1, i1, c1, g1, d1, subs1⟩ := e1
  obtain ⟨b2, en2, dg2, i2, c2, g2, d2, subs2⟩ := e2
  simp only [CVEntry.extract_subentries_skills]
  rw [skFind_aggChildren, skFind_aggChildren]
  rw [esd_congr now ⟨b1, en1, dg1, i1, c1, g1, d1, subs1⟩
    ⟨b2, en2, dg2, i2, c2, g2, d2, subs2⟩ hb he hd]
  exact foldl_optAdd_perm _ hp _

/-- Witness for `extract_subentries_skills_perm_invariant`: swapping the two
subentries of a concrete parent preserves the aggregated lookup. -/
theorem extract_subentries_skills_perm_invariant_witness :
    skFind
        (CVEntry.extract_subentries_skills 0
          ⟨none, none, "", "", none, none, none,
            [subWithSkill, entryNoBeginning]⟩) "CI/CD" "git" =
      skFind
        (CVEntry.extract_subentries_skills 0
          ⟨none, none, "", "", none, none, none,
            [entryNoBeginning, subWithSkill]⟩) "CI/CD" "git" :=
  extract_subentries_skills_perm_invariant 0
    ⟨none, none, "", "", none, none, none, [subWithSkill, entryNoBeginning]⟩
    ⟨none, none, "", "", none, none, none, [entryNoBeginning, subWithSkill]⟩
    rfl rfl rfl (List.Perm.swap entryNoBeginning subWithSkill []) "CI/CD" "git"

/-- Brace-count difference distributes over appending. -/
theorem dCount_append (a b : String) : dCount (a ++ b) = dCount a + dCount b := by
  simp only [dCount, String.data_append, List.count_append]
  omega

/-- A string of non-brace characters has zero brace-count difference. -/
theorem dCount_mk_of_no_brace (l : List Char)
    (h : ∀ c ∈ l, c ≠ lb ∧ c ≠ rb) : dCount (String.mk l) = 0 := by
  have h1 : l.count lb = 0 := List.count_eq_zero.mpr (fun hm => (h lb hm).1 rfl)
  have h2 : l.count rb = 0 := List.count_eq_zero.mpr (fun hm => (h rb hm).2 rfl)
  simp [dCount, h1, h2]

/-- Digit characters are not braces. -/
theorem digitCh_not_brace (d : Nat) : digitCh d ≠ lb ∧ digitCh d ≠ rb := by
  unfold digitCh lb rb
  have hm : d % 10 < 10 := Nat.mod_lt _ (by omega)
  revert hm
  generalize d % 10 = m
  revert m
  decide

/-- Every character of a rendered decimal number is a digit. -/
theorem natReprAux_no_brace :
    ∀ (fuel n : Nat), ∀ c ∈ natReprAux fuel n, c ≠ lb ∧ c ≠ rb := by
  intro fuel
  induction fuel with
  | zero =>
    intro n c hc
    simp [natReprAux] at hc
  | succ f ih =>
    intro n c hc
    simp only [natReprAux] at hc
    by_cases h : n < 10
    · rw [if_pos h] at hc
      simp only [List.mem_singleton] at hc
      subst hc
      exact digitCh_not_brace n
    · rw [if_neg h] at hc
      rcases List.mem_append.mp hc with hc2 | hc2
      · exact ih _ c hc2
      · simp only [List.mem_singleton] at hc2
        subst hc2
        exact digitCh_not_brace _

/-- A rendered decimal number has zero brace-count difference. -/
theorem dCount_natRepr (n : Nat) : dCount (natRepr n) = 0 :=
  dCount_mk_of_no_brace _ (natReprAux_no_brace _ n)

/-- A formatted year has zero brace-count difference. -/
theorem dCount_formatYear (y : Nat) : dCount (formatYear y) = 0 := by
  unfold formatYear
  by_cases h1 : y ≤ 9999
  · rw [if_pos h1]
    by_cases h2 : (natRepr y).length < 4
    · rw [if_pos h2, dCount_append, dCount_natRepr,
        dCount_mk_of_no_brace _ (fun c hc => by
          rw [List.eq_of_mem_replicate hc]
          exact digitCh_not_brace 0)]
      decide
    · rw [if_neg h2]
      exact dCount_natRepr y
  · rw [if_neg h1, dCount_append, dCount_natRepr]
    decide

/-- The margin number of the `\hspace*` directive has zero brace-count
difference. -/
theorem dCount_hspaceNum (m : Nat) : dCount (hspaceNum m) = 0 := by
  unfold hspaceNum
  by_cases h : m ≤ 21
  · rw [if_pos h, dCount_append, dCount_natRepr]
    decide
  · rw [if_neg h, dCount_append, dCount_append, dCount_natRepr]
    decide

/-- A separator-join of balanced strings with a balanced separator is
balanced. -/
theorem dCount_joinSep (sep : String) (hsep : dCount sep = 0) :
    ∀ l : List String, (∀ s ∈ l, dCount s = 0) →
      dCount (joinSep sep l) = 0 := by
  intro l
  induction l with
  | nil =>
    intro _
    simp only [joinSep]
    decide
  | cons s t ih =>
    intro h
    cases t with
    | nil => simpa [joinSep] using h s (by simp)
    | cons s2 t2 =>
      have hs : dCount s = 0 := h s (by simp)
      have ht : ∀ x ∈ s2 :: t2, dCount x = 0 := fun x hx => h x (by simp [hx])
      simp only [joinSep] at ih ⊢
      rw [dCount_append, dCount_append, hs, hsep, ih ht]
      decide

/-- The date label of an entry has zero brace-count difference. -/
theorem dCount_get_dates (e : CVEntry) : dCount e.get_dates = 0 := by
  unfold CVEntry.get_dates
  apply dCount_joinSep _ (by decide)
  intro s hs
  rcases List.mem_append.mp hs with h | h
  · cases hb : e.beginning with
    | none => rw [hb] at h; simp at h
    | some b =>
      rw [hb] at h
      simp only [List.mem_singleton] at h
      subst h
      exact dCount_formatYear _
  · cases hen : e.ending with
    | none => rw [hen] at h; simp at h
    | some en =>
      rw [hen] at h
      simp only [List.mem_singleton] at h
      subst h
      exact dCount_formatYear _

/-- Dropping a whitespace prefix does not change the count of a non-whitespace
character. -/
theorem count_dropWhile_ws (c : Char) (hc : ¬ c.isWhitespace = true) :
    ∀ l : List Char, (l.dropWhile Char.isWhitespace).count c = l.count c := by
  intro l
  induction l with
  | nil => rfl
  | cons x t ih =>
    by_cases hx : Char.isWhitespace x
    · rw [List.dropWhile_cons_of_pos hx, ih]
      have hne : ¬ (x == c) = true := fun hh =>
        hc (by rw [← eq_of_beq hh]; exact hx)
      simp [List.count_cons, hne]
    · rw [List.dropWhile_cons_of_neg hx]

/-- Trimming whitespace preserves the brace-count difference. -/
theorem dCount_rustTrim (s : String) : dCount (rustTrim s) = dCount s := by
  have hlb : ¬ lb.isWhitespace = true := by decide
  have hrb : ¬ rb.isWhitespace = true := by decide
  simp only [rustTrim, dCount, List.count_reverse, count_dropWhile_ws _ hlb,
    count_dropWhile_ws _ hrb]

/-- `braceBalanced` is exactly a zero brace-count difference. -/
theorem braceBalanced_iff (s : String) :
    braceBalanced s = true ↔ dCount s = 0 := by
  simp only [braceBalanced, beq_iff_eq, dCount]
  omega

/-- A successful lookup means the binding is in the list. -/
theorem alFind_mem {V : Type} :
    ∀ (m : List (String × V)) (k : String) (v : V),
      alFind m k = some v → (k, v) ∈ m := by
  intro m
  induction m with
  | nil =>
    intro k v h
    simp [alFind] at h
  | cons hd t ih =>
    intro k v h
    obtain ⟨k2, v2⟩ := hd
    simp only [alFind] at h
    by_cases h2 : k2 = k
    · rw [if_pos h2] at h
      injection h with h3
      subst h3
      subst h2
      exact List.mem_cons_self _ _
    · rw [if_neg h2] at h
      exact List.mem_cons_of_mem _ (ih _ _ h)

/-- Every line produced by the category-item fold of the description renderer
is brace-balanced, given balanced skill strings. -/
theorem item_fold_balanced (skills : List (String × List String))
    (hsk : ∀ name l, alFind skills name = some l → ∀ s ∈ l, dCount s = 0) :
    ∀ (names : List String), (∀ nm ∈ names, dCount nm = 0) →
      ∀ (acc : List String), (∀ x ∈ acc, dCount x = 0) →
      ∀ x ∈ names.foldl (fun acc2 name =>
          match alFind skills name with
          | some list =>
            acc2 ++ ["\\item [" ++ name ++ "] " ++ joinSep ", " list]
          | none => acc2) acc, dCount x = 0 := by
  intro names
  induction names with
  | nil =>
    intro _ acc hacc x hx
    exact hacc x hx
  | cons nm t ih =>
    intro hnm acc hacc x hx
    simp only [List.foldl_cons] at hx
    refine ih (fun a ha => hnm a (List.mem_cons_of_mem _ ha)) _ ?_ x hx
    intro y hy
    cases hf : alFind skills nm with
    | none =>
      rw [hf] at hy
      exact hacc y hy
    | some list =>
      rw [hf] at hy
      rcases List.mem_append.mp hy with hy2 | hy2
      · exact hacc y hy2
      · simp only [List.mem_singleton] at hy2
        subst hy2
        rw [dCount_append, dCount_append, dCount_append,
          hnm nm (List.mem_cons_self _ _),
          dCount_joinSep _ (by decide) list (hsk nm list hf)]
        decide

/-- A description with balanced free text renders to a balanced block. -/
theorem desc_to_latex_balanced (d : EntryDescription)
    (h : d.textBalanced = true) : dCount d.to_latex = 0 := by
  simp only [EntryDescription.textBalanced, Bool.and_eq_true] at h
  obtain ⟨hctx0, hall0⟩ := h
  have hctx : dCount d.context = 0 := (braceBalanced_iff _).mp hctx0
  simp only [List.all_eq_true, List.mem_append] at hall0
  have hall : ∀ s, (s ∈ d.programming ∨ s ∈ d.version ∨ s ∈ d.database ∨
      s ∈ d.cloud ∨ s ∈ d.ci ∨ s ∈ d.other) → dCount s = 0 := by
    intro s hs
    apply (braceBalanced_iff _).mp
    apply hall0
    tauto
  have hsk : ∀ name l, alFind d.extract_skills name = some l →
      ∀ s ∈ l, dCount s = 0 := by
    intro name l hf s hs
    have hm := alFind_mem _ _ _ hf
    simp only [EntryDescription.extract_skills, List.mem_filter,
      List.mem_cons, List.not_mem_nil, or_false, Prod.mk.injEq] at hm
    rcases hm.1 with ⟨_, hl⟩ | ⟨_, hl⟩ | ⟨_, hl⟩ | ⟨_, hl⟩ | ⟨_, hl⟩ | ⟨_, hl⟩ <;>
      subst hl <;> exact hall s (by tauto)
  unfold EntryDescription.to_latex
  dsimp only
  by_cases hemp : d.extract_skills.isEmpty
  · rw [if_pos hemp]
    apply dCount_joinSep _ (by decide)
    intro s hs
    rcases List.mem_cons.mp hs with h1 | h1
    · subst h1
      decide
    · simp only [List.mem_singleton] at h1
      subst h1
      exact hctx
  · rw [if_neg hemp]
    apply dCount_joinSep _ (by decide)
    intro s hs
    simp only [List.append_assoc, List.mem_append, List.mem_cons,
      List.mem_singleton, List.not_mem_nil, or_false] at hs
    rcases hs with (h1 | h1) | h1 | h1 | h1
    · subst h1
      decide
    · subst h1
      exact hctx
    · subst h1
      decide
    · exact item_fold_balanced d.extract_skills hsk SKILL_CATEGORIES
        (by decide) [] (by simp) s h1
    · subst h1
      decide

mutual

/-- Claim C4 core: an entry tree whose free-text fields are brace-balanced
renders to markup with a zero brace-count difference. -/
theorem CVEntry.to_latex_dCount :
    ∀ e : CVEntry, e.textBalanced = true → dCount e.to_latex = 0
  | ⟨b, en, dg, inst, city, grade, desc, subs⟩, h => by
    simp only [CVEntry.textBalanced, Bool.and_eq_true] at h
    obtain ⟨⟨⟨⟨⟨hdg, hinst⟩, hcity⟩, hgrade⟩, hdesc⟩, hsubs⟩ := h
    simp only [CVEntry.to_latex]
    simp only [dCount_append]
    rw [dCount_get_dates, dCount_rustTrim]
    rw [renderSubs_dCount _ subs _ hsubs]
    have hdescr0 : ∀ o : Option EntryDescription,
        (match o with
         | some d => d.textBalanced
         | none => true) = true →
        dCount (match o with
          | some d => d.to_latex
          | none => "") = 0 := by
      intro o ho
      cases o with
      | some d => exact desc_to_latex_balanced d ho
      | none => decide
    rw [hdescr0 desc hdesc, (braceBalanced_iff _).mp hdg, (braceBalanced_iff _).mp hinst,
      (braceBalanced_iff _).mp hcity, (braceBalanced_iff _).mp hgrade]
    have e1 : dCount "\\cventry\x7b" = 1 := by decide
    have e2 : dCount "\x7d\x7b" = 0 := by decide
    have e3 : dCount "\x7d\x7b%\n" = 0 := by decide
    have e4 : dCount "%\n\x7d" = -1 := by decide
    omega
termination_by structural e => e

/-- The subentry render loop preserves the brace-count difference of the
accumulated block when all subentry trees are balanced. -/
theorem renderSubs_dCount :
    ∀ (m : Option Nat) (l : List CVEntry) (d0 : String),
      listTextBalanced l = true → dCount (renderSubs m l d0) = dCount d0
  | _, [], d0, _ => by simp [renderSubs]
  | m, sub :: t, d0, h => by
    simp only [listTextBalanced, Bool.and_eq_true] at h
    obtain ⟨h1, h2⟩ := h
    simp only [renderSubs]
    rw [renderSubs_dCount m t _ h2]
    cases m with
    | some mm =>
      simp only [dCount_append]
      rw [CVEntry.to_latex_dCount sub h1, dCount_hspaceNum]
      have e1 : dCount "\n" = 0 := by decide
      have e2 : dCount "\\hspace*\x7b-" = 1 := by decide
      have e3 : dCount "ex\x7d" = -1 := by decide
      omega
    | none =>
      simp only [dCount_append]
      rw [CVEntry.to_latex_dCount sub h1]
      have e1 : dCount "\n" = 0 := by decide
      omega
termination_by structural m l d0 h => l

end

/-- Claim C4, amended: for every entry tree whose free-text fields (degree,
institution, city, grade, description context and skill tags) are themselves
brace-balanced, the rendered markup contains equally many opening and closing
group delimiters, at any nesting depth. -/
theorem to_latex_brace_balance (e : CVEntry) (h : e.textBalanced = true) :
    (e.to_latex).data.count lb = (e.to_latex).data.count rb := by
  have hd := CVEntry.to_latex_dCount e h
  simp only [dCount] at hd
  omega

/-- Claim C4, counterexample: free text is interpolated verbatim, so an entry
whose degree field is a lone opening brace renders to markup with seven
opening and six closing delimiters. -/
theorem to_latex_brace_balance_counterexample :
    (entryUnbalanced.to_latex).data.count lb = 7 ∧
      (entryUnbalanced.to_latex).data.count rb = 6 := by
  constructor <;> decide

/-- Witness for `to_latex_brace_balance`: the depth-three tree has balanced
text fields and its rendering has equal delimiter counts. -/
theorem to_latex_brace_balance_witness :
    CVEntry.textBalanced entryDeep = true ∧
      (entryDeep.to_latex).data.count lb = (entryDeep.to_latex).data.count rb :=
  ⟨by decide, to_latex_brace_balance entryDeep (by decide)⟩

/-- Consuming the UTF-8 encoding of any Unicode scalar value leaves the
validator's verdict on the remaining bytes unchanged. -/
theorem validUtf8_encodeChar (c : Char) (rest : List Nat) :
    validUtf8 (utf8EncodeChar c ++ rest) = validUtf8 rest := by
  have hv : Nat.isValidChar c.toNat := c.valid
  have hlt : c.toNat < 0x110000 := by
    rcases hv with h | ⟨_, h⟩
    · omega
    · exact h
  have hsur : c.toNat < 0xd800 ∨ 0xdfff < c.toNat := by
    rcases hv with h | ⟨h, _⟩
    · exact Or.inl h
    · exact Or.inr h
  unfold utf8EncodeChar
  by_cases h1 : c.toNat < 0x80
  · rw [if_pos h1]
    simp only [List.cons_append, List.nil_append]
    rw [validUtf8, if_pos h1]
  · rw [if_neg h1]
    by_cases h2 : c.toNat < 0x800
    · rw [if_pos h2]
      simp only [List.cons_append, List.nil_append]
      rw [validUtf8, if_neg (by omega), if_pos (by omega :
        0xC2 ≤ 0xC0 + c.toNat / 0x40 ∧ 0xC0 + c.toNat / 0x40 ≤ 0xDF)]
      rw [validRun, if_pos (by omega :
        0x80 ≤ 0x80 + c.toNat % 0x40 ∧ 0x80 + c.toNat % 0x40 ≤ 0xBF)]
      rw [if_pos rfl]
    · rw [if_neg h2]
      by_cases h3 : c.toNat < 0x10000
      · rw [if_pos h3]
        simp only [List.cons_append, List.nil_append]
        rw [validUtf8, if_neg (by omega), if_neg (by omega)]
        by_cases hq0 : c.toNat / 0x1000 = 0
        · rw [if_pos (by omega : 0xE0 + c.toNat / 0x1000 = 0xE0)]
          rw [validRun, if_pos (by omega :
            0xA0 ≤ 0x80 + c.toNat / 0x40 % 0x40 ∧
              0x80 + c.toNat / 0x40 % 0x40 ≤ 0xBF)]
          rw [if_neg (by omega), validRun, if_pos (by omega :
            0x80 ≤ 0x80 + c.toNat % 0x40 ∧ 0x80 + c.toNat % 0x40 ≤ 0xBF)]
          rw [if_pos (by omega)]
        · rw [if_neg (by omega : ¬ (0xE0 + c.toNat / 0x1000 = 0xE0))]
          by_cases hq13 : c.toNat / 0x1000 = 13
          · rw [if_neg (by omega :
              ¬ ((0xE1 ≤ 0xE0 + c.toNat / 0x1000 ∧
                  0xE0 + c.toNat / 0x1000 ≤ 0xEC) ∨
                0xE0 + c.toNat / 0x1000 = 0xEE ∨
                0xE0 + c.toNat / 0x1000 = 0xEF))]
            rw [if_pos (by omega : 0xE0 + c.toNat / 0x1000 = 0xED)]
            rw [validRun, if_pos (by omega :
              0x80 ≤ 0x80 + c.toNat / 0x40 % 0x40 ∧
                0x80 + c.toNat / 0x40 % 0x40 ≤ 0x9F)]
            rw [if_neg (by omega), validRun, if_pos (by omega :
              0x80 ≤ 0x80 + c.toNat % 0x40 ∧ 0x80 + c.toNat % 0x40 ≤ 0xBF)]
            rw [if_pos (by omega)]
          · rw [if_pos (by omega :
              (0xE1 ≤ 0xE0 + c.toNat / 0x1000 ∧
                0xE0 + c.toNat / 0x1000 ≤ 0xEC) ∨
              0xE0 + c.toNat / 0x1000 = 0xEE ∨
              0xE0 + c.toNat / 0x1000 = 0xEF)]
            rw [validRun, if_pos (by omega :
              0x80 ≤ 0x80 + c.toNat / 0x40 % 0x40 ∧
                0x80 + c.toNat / 0x40 % 0x40 ≤ 0xBF)]
            rw [if_neg (by omega), validRun, if_pos (by omega :
              0x80 ≤ 0x80 + c.toNat % 0x40 ∧ 0x80 + c.toNat % 0x40 ≤ 0xBF)]
            rw [if_pos (by omega)]
      · rw [if_neg h3]
        simp only [List.cons_append, List.nil_append]
        rw [validUtf8, if_neg (by omega), if_neg (by omega),
          if_neg (by omega), if_neg (by omega), if_neg (by omega)]
        by_cases hf0 : c.toNat / 0x40000 = 0
        · rw [if_pos (by omega : 0xF0 + c.toNat / 0x40000 = 0xF0)]
          rw [validRun, if_pos (by omega :
            0x90 ≤ 0x80 + c.toNat / 0x1000 % 0x40 ∧
              0x80 + c.toNat / 0x1000 % 0x40 ≤ 0xBF)]
          rw [if_neg (by omega), validRun, if_pos (by omega :
            0x80 ≤ 0x80 + c.toNat / 0x40 % 0x40 ∧
              0x80 + c.toNat / 0x40 % 0x40 ≤ 0xBF)]
          rw [if_neg (by omega), validRun, if_pos (by omega :
            0x80 ≤ 0x80 + c.toNat % 0x40 ∧ 0x80 + c.toNat % 0x40 ≤ 0xBF)]
          rw [if_pos (by omega)]
        · rw [if_neg (by omega : ¬ (0xF0 + c.toNat / 0x40000 = 0xF0))]
          by_cases hf4 : c.toNat / 0x40000 = 4
          · rw [if_neg (by omega :
              ¬ (0xF1 ≤ 0xF0 + c.toNat / 0x40000 ∧
                0xF0 + c.toNat / 0x40000 ≤ 0xF3))]
            rw [if_pos (by omega : 0xF0 + c.toNat / 0x40000 = 0xF4)]
            rw [validRun, if_pos (by omega :
              0x80 ≤ 0x80 + c.toNat / 0x1000 % 0x40 ∧
                0x80 + c.toNat / 0x1000 % 0x40 ≤ 0x8F)]
            rw [if_neg (by omega), validRun, if_pos (by omega :
              0x80 ≤ 0x80 + c.toNat / 0x40 % 0x40 ∧
                0x80 + c.toNat / 0x40 % 0x40 ≤ 0xBF)]
            rw [if_neg (by omega), validRun, if_pos (by omega :
              0x80 ≤ 0x80 + c.toNat % 0x40 ∧ 0x80 + c.toNat % 0x40 ≤ 0xBF)]
            rw [if_pos (by omega)]
          · rw [if_pos (by omega :
              0xF1 ≤ 0xF0 + c.toNat / 0x40000 ∧
                0xF0 + c.toNat / 0x40000 ≤ 0xF3)]
            rw [validRun, if_pos (by omega :
              0x80 ≤ 0x80 + c.toNat / 0x1000 % 0x40 ∧
                0x80 + c.toNat / 0x1000 % 0x40 ≤ 0xBF)]
            rw [if_neg (by omega), validRun, if_pos (by omega :
              0x80 ≤ 0x80 + c.toNat / 0x40 % 0x40 ∧
                0x80 + c.toNat / 0x40 % 0x40 ≤ 0xBF)]
            rw [if_neg (by omega), validRun, if_pos (by omega :
              0x80 ≤ 0x80 + c.toNat % 0x40 ∧ 0x80 + c.toNat % 0x40 ≤ 0xBF)]
            rw [if_pos (by omega)]

/-- The byte encoding of any string passes UTF-8 validation. -/
theorem validUtf8_strBytes (s : String) : validUtf8 (strBytes s) = true := by
  unfold strBytes
  induction s.data with
  | nil => rfl
  | cons c t ih =>
    simp only [List.foldr_cons, validUtf8_encodeChar]
    exact ih

/-- Claim C10: full-document rendering always succeeds: its only fallible step
is UTF-8 validation of the preamble's byte encoding, which holds for the byte
encoding of any string constant. -/
theorem to_latex_total (preambule : String) (c : Curriculum) :
    ∃ out, Curriculum.to_latex preambule c = Except.ok out := by
  unfold Curriculum.to_latex string_from_utf8
  rw [validUtf8_strBytes]
  exact ⟨_, rfl⟩
